import Mathlib

/-
  Verification of the Gemini <-> OpenAI protocol converter
  (src/dev_notes/02_Implementation/refined_reference.py).

  The embedding translates the Python source into executable Lean
  definitions: Python dicts carrying JSON values become the `Json` type
  below, `json.dumps` becomes `dumps`, `json.loads` becomes `loads`
  (returning `Option Json`: `none` models a raised JSONDecodeError),
  Python string truthiness is modelled by comparison with the empty
  string, and the mutable per-stream accumulation dict becomes an
  association list threaded through the functions.
-/

namespace Proxy

/- JSON values, as a mutual inductive family so that all functions over
them are structurally recursive and kernel-computable.  Numeric literals
keep their source lexeme (the converter never performs arithmetic on
them). -/
mutual
inductive Json where
  | null : Json
  | bool : Bool → Json
  | num : String → Json
  | str : String → Json
  | arr : JArr → Json
  | obj : JObj → Json
inductive JArr where
  | nil : JArr
  | cons : Json → JArr → JArr
inductive JObj where
  | nil : JObj
  | cons : String → Json → JObj → JObj
end

/-- Build a JSON array from a Lean list. -/
def toJArr : List Json → JArr
  | [] => JArr.nil
  | x :: xs => JArr.cons x (toJArr xs)

/-- Build a JSON object from a Lean list of key/value pairs
(insertion order preserved, as in Python dicts). -/
def toJObj : List (String × Json) → JObj
  | [] => JObj.nil
  | (k, v) :: kvs => JObj.cons k v (toJObj kvs)

def pchQuote : Char := Char.ofNat 34
def pchBackslash : Char := Char.ofNat 92
def pchLBrace : Char := Char.ofNat 123
def pchRBrace : Char := Char.ofNat 125
def pchNewline : Char := Char.ofNat 10

/-- Escape one character for a JSON string literal (the escapes
`json.dumps` produces for the characters appearing in this program). -/
def escapeChar (c : Char) : String :=
  if c = pchQuote then String.mk [pchBackslash, pchQuote]
  else if c = pchBackslash then String.mk [pchBackslash, pchBackslash]
  else if c = pchNewline then String.mk [pchBackslash, 'n']
  else if c = Char.ofNat 9 then String.mk [pchBackslash, 't']
  else if c = Char.ofNat 13 then String.mk [pchBackslash, 'r']
  else String.singleton c

/-- Serialize a string as a JSON string literal. -/
def dumpsStr (s : String) : String :=
  "\"" ++ String.join (s.data.map escapeChar) ++ "\""

/- `json.dumps` with Python's default separators (", " and ": "). -/
mutual
def dumps : Json → String
  | Json.null => "null"
  | Json.bool b => if b then "true" else "false"
  | Json.num lx => lx
  | Json.str s => dumpsStr s
  | Json.arr xs => "[" ++ dumpsArr xs ++ "]"
  | Json.obj kvs => "\x7b" ++ dumpsObj kvs ++ "\x7d"
def dumpsArr : JArr → String
  | JArr.nil => ""
  | JArr.cons x JArr.nil => dumps x
  | JArr.cons x xs => dumps x ++ ", " ++ dumpsArr xs
def dumpsObj : JObj → String
  | JObj.nil => ""
  | JObj.cons k v JObj.nil => dumpsStr k ++ ": " ++ dumps v
  | JObj.cons k v kvs => dumpsStr k ++ ": " ++ dumps v ++ ", " ++ dumpsObj kvs
end

/-- Whitespace characters recognised by Python's `str.strip()` and by
the `\s` class of the fence regex (the ASCII ones). -/
def pyIsSpace (c : Char) : Bool :=
  c = ' ' || c = Char.ofNat 9 || c = Char.ofNat 10 || c = Char.ofNat 13 ||
  c = Char.ofNat 11 || c = Char.ofNat 12

/-- Python's `str.strip()`. -/
def pyStrip (s : String) : String :=
  String.mk (((s.data.dropWhile pyIsSpace).reverse.dropWhile pyIsSpace).reverse)

/-- Whitespace skipped between JSON tokens (Python's json module skips
exactly space, tab, newline, carriage return). -/
def jsonWs (c : Char) : Bool :=
  c = ' ' || c = Char.ofNat 9 || c = Char.ofNat 10 || c = Char.ofNat 13

def skipWs (l : List Char) : List Char := l.dropWhile jsonWs

def hexVal (c : Char) : Option Nat :=
  if '0' ≤ c ∧ c ≤ '9' then some (c.toNat - 48)
  else if 'a' ≤ c ∧ c ≤ 'f' then some (c.toNat - 87)
  else if 'A' ≤ c ∧ c ≤ 'F' then some (c.toNat - 55)
  else none

/-- Parse the body of a JSON string literal (after the opening quote),
returning the decoded string and the input after the closing quote. -/
def parseStringBody : Nat → List Char → List Char → Option (String × List Char)
  | 0, _, _ => none
  | _, _, [] => none
  | fuel + 1, acc, c :: rest =>
    if c = pchQuote then some (String.mk acc.reverse, rest)
    else if c = pchBackslash then
      match rest with
      | [] => none
      | e :: rest2 =>
        if e = pchQuote then parseStringBody fuel (pchQuote :: acc) rest2
        else if e = pchBackslash then parseStringBody fuel (pchBackslash :: acc) rest2
        else if e = '/' then parseStringBody fuel ('/' :: acc) rest2
        else if e = 'b' then parseStringBody fuel (Char.ofNat 8 :: acc) rest2
        else if e = 'f' then parseStringBody fuel (Char.ofNat 12 :: acc) rest2
        else if e = 'n' then parseStringBody fuel (pchNewline :: acc) rest2
        else if e = 'r' then parseStringBody fuel (Char.ofNat 13 :: acc) rest2
        else if e = 't' then parseStringBody fuel (Char.ofNat 9 :: acc) rest2
        else if e = 'u' then
          match rest2 with
          | a :: b :: c2 :: d :: rest3 =>
            match hexVal a, hexVal b, hexVal c2, hexVal d with
            | some x, some y, some z, some w =>
              parseStringBody fuel (Char.ofNat (((x * 16 + y) * 16 + z) * 16 + w) :: acc) rest3
            | _, _, _, _ => none
          | _ => none
        else none
    else parseStringBody fuel (c :: acc) rest

def isDigitCh (c : Char) : Bool := '0' ≤ c && c ≤ '9'

/-- Parse a JSON number, keeping its lexeme.  Follows the json grammar:
optional minus, integer part with no leading zero, optional fraction,
optional exponent. -/
def parseNumber (l : List Char) : Option (Json × List Char) :=
  let sign : List Char := if l.head? = some '-' then ['-'] else []
  let l1 := if l.head? = some '-' then l.drop 1 else l
  let ds := l1.takeWhile isDigitCh
  let l2 := l1.drop ds.length
  if ds = [] then none
  else if ds.length > 1 ∧ ds.head? = some '0' then none
  else
    let fd := (l2.drop 1).takeWhile isDigitCh
    let hasFrac := l2.head? = some '.' ∧ fd ≠ []
    let frac : List Char := if hasFrac then '.' :: fd else []
    let l3 := if hasFrac then l2.drop (1 + fd.length) else l2
    let isExpCh := l3.head? = some 'e' ∨ l3.head? = some 'E'
    let sgnCh := (l3.drop 1).head?
    let hasSgn := sgnCh = some '+' ∨ sgnCh = some '-'
    let l5 := if hasSgn then l3.drop 2 else l3.drop 1
    let ed := l5.takeWhile isDigitCh
    let hasExp := isExpCh ∧ ed ≠ []
    let expPart : List Char :=
      if hasExp then
        (l3.take 1) ++ (if hasSgn then l3.drop 1 |>.take 1 else []) ++ ed
      else []
    let l4 := if hasExp then l5.drop ed.length else l3
    some (Json.num (String.mk (sign ++ ds ++ frac ++ expPart)), l4)

/- Recursive-descent JSON value parser with explicit fuel (the fuel
supplied by `loads` always suffices, since every nesting level consumes
input). -/
mutual
def parseValue : Nat → List Char → Option (Json × List Char)
  | 0, _ => none
  | fuel + 1, l =>
    match skipWs l with
    | [] => none
    | c :: rest =>
      if c = pchLBrace then parseObjRest fuel rest
      else if c = '[' then parseArrRest fuel rest
      else if c = pchQuote then
        (parseStringBody (rest.length + 1) [] rest).map (fun p => (Json.str p.1, p.2))
      else if c = 't' then
        (if rest.take 3 = ['r', 'u', 'e'] then some (Json.bool true, rest.drop 3) else none)
      else if c = 'f' then
        (if rest.take 4 = ['a', 'l', 's', 'e'] then some (Json.bool false, rest.drop 4) else none)
      else if c = 'n' then
        (if rest.take 3 = ['u', 'l', 'l'] then some (Json.null, rest.drop 3) else none)
      else parseNumber (c :: rest)

def parseArrRest : Nat → List Char → Option (Json × List Char)
  | 0, _ => none
  | fuel + 1, l =>
    match skipWs l with
    | [] => none
    | c :: rest =>
      if c = ']' then some (Json.arr JArr.nil, rest)
      else
        match parseValue fuel l with
        | some (v, r) => parseArrItems fuel [v] r
        | none => none

def parseArrItems : Nat → List Json → List Char → Option (Json × List Char)
  | 0, _, _ => none
  | fuel + 1, acc, l =>
    match skipWs l with
    | [] => none
    | c :: rest =>
      if c = ',' then
        match parseValue fuel rest with
        | some (v, r) => parseArrItems fuel (v :: acc) r
        | none => none
      else if c = ']' then some (Json.arr (toJArr acc.reverse), rest)
      else none

def parseObjRest : Nat → List Char → Option (Json × List Char)
  | 0, _ => none
  | fuel + 1, l =>
    match skipWs l with
    | [] => none
    | c :: rest =>
      if c = pchRBrace then some (Json.obj JObj.nil, rest)
      else if c = pchQuote then
        match parseStringBody (rest.length + 1) [] rest with
        | some (k, r) => parsePairRest fuel k [] r
        | none => none
      else none

def parsePairRest : Nat → String → List (String × Json) → List Char → Option (Json × List Char)
  | 0, _, _, _ => none
  | fuel + 1, k, acc, l =>
    match skipWs l with
    | [] => none
    | c :: rest =>
      if c = ':' then
        match parseValue fuel rest with
        | some (v, r) => parseObjItems fuel ((k, v) :: acc) r
        | none => none
      else none

def parseObjItems : Nat → List (String × Json) → List Char → Option (Json × List Char)
  | 0, _, _ => none
  | fuel + 1, acc, l =>
    match skipWs l with
    | [] => none
    | c :: rest =>
      if c = ',' then
        match skipWs rest with
        | [] => none
        | c2 :: rest2 =>
          if c2 = pchQuote then
            match parseStringBody (rest2.length + 1) [] rest2 with
            | some (k, r) => parsePairRest fuel k acc r
            | none => none
          else none
      else if c = pchRBrace then some (Json.obj (toJObj acc.reverse), rest)
      else none
end

/-- `json.loads`: parse one JSON document; `none` models a raised
JSONDecodeError (in particular on the empty string and on any truncated
document). -/
def loads (s : String) : Option Json :=
  match parseValue (2 * s.length + 4) s.data with
  | some (v, rest) => if skipWs rest = [] then some v else none
  | none => none

/-
  Dialect-A (Gemini) request model.  A part is a tagged union of the
  runtime shapes `convert_contents_to_messages` discriminates on:
  a dict with a "text" key, a dict with a "functionCall" key, a dict
  with a "functionResponse" key, or a bare string.  `Option` fields model
  `dict.get` on the inner dicts.
-/
inductive GPart where
  | text : String → GPart
  | functionCall : Option String → Option Json → GPart
  | functionResponse : Option String → Option Json → GPart
  | strPart : String → GPart

/-- One entry of the `contents` list: `content.get("role", "user")` and
`content.get("parts", [])` (an absent role is represented by the default
"user"). -/
structure GContent where
  role : String
  parts : List GPart

/-- An OpenAI tool call as built at lines 102-109 of the source. -/
structure OToolCall where
  id : String
  name : String
  arguments : String
deriving DecidableEq

/-- An OpenAI chat message as built by `convert_contents_to_messages`:
the assistant message's content is `none` when the combined text is
blank, and its tool-call list is empty when the key would be absent. -/
inductive OMessage where
  | user : String → OMessage
  | tool : String → String → OMessage
  | assistant : Option String → List OToolCall → OMessage
  | system : String → OMessage

/-- Lines 102-109: build one OpenAI tool call from a functionCall part
(`func_call.get('name', 'unknown')`, `func_call.get("name", "")`,
`json.dumps(func_call.get("args", {}))`). -/
def mkToolCall (n : Option String) (a : Option Json) : OToolCall :=
  ⟨n.getD "unknown" ++ ":0", n.getD "", dumps (a.getD (Json.obj JObj.nil))⟩

/-- Lines 84-88: does a part match `"functionResponse" in next_part`
with `next_part["functionResponse"].get("name") == func_name`? -/
def partRespNameMatches (funcName : Option String) : GPart → Bool
  | GPart.functionResponse rn _ => rn = funcName
  | _ => false

/-- Lines 79-92: search the turns after the current one for a user turn
containing a functionResponse whose name matches the call's name. -/
def hasMatchingResponse (later : List GContent) (funcName : Option String) : Bool :=
  later.any fun c => c.role = "user" && c.parts.any (partRespNameMatches funcName)

/-- Lines 36-53: the user branch of the loop — concatenate text parts
and collect a tool message for every functionResponse part, in order. -/
def convertUserParts : List GPart → String × List OMessage
  | [] => ("", [])
  | p :: rest =>
    let r := convertUserParts rest
    match p with
    | GPart.text s => (s ++ r.1, r.2)
    | GPart.strPart s => (s ++ r.1, r.2)
    | GPart.functionResponse n resp =>
      (r.1, OMessage.tool (n.getD "unknown" ++ ":0") (dumps (resp.getD (Json.obj JObj.nil))) :: r.2)
    | GPart.functionCall _ _ => (r.1, r.2)

/-- Lines 67-112: the model branch of the loop — concatenate text parts
and convert functionCall parts, skipping a call when this is the last
turn of the whole input and no later user turn holds a matching
functionResponse. -/
def convertModelParts (isLast : Bool) (later : List GContent) : List GPart → String × List OToolCall
  | [] => ("", [])
  | p :: rest =>
    let r := convertModelParts isLast later rest
    match p with
    | GPart.text s => (s ++ r.1, r.2)
    | GPart.strPart s => (s ++ r.1, r.2)
    | GPart.functionCall n a =>
      if isLast && !(hasMatchingResponse later n) then (r.1, r.2)
      else (r.1, mkToolCall n a :: r.2)
    | GPart.functionResponse _ _ => (r.1, r.2)

/-- Lines 34-123: the messages contributed by one turn, given the turns
after it (`later`; the turn is the last one iff `later` is empty). -/
def convertOne (c : GContent) (later : List GContent) : List OMessage :=
  if c.role = "user" then
    let r := convertUserParts c.parts
    (if pyStrip r.1 ≠ "" then [OMessage.user (pyStrip r.1)] else []) ++ r.2
  else if c.role = "model" then
    let r := convertModelParts later.isEmpty later c.parts
    if pyStrip r.1 ≠ "" ∨ r.2 ≠ [] then
      [OMessage.assistant (if pyStrip r.1 ≠ "" then some (pyStrip r.1) else none) r.2]
    else []
  else []

/-- `GeminiToOpenAIConverter.convert_contents_to_messages` (lines
26-125). -/
def convert_contents_to_messages : List GContent → List OMessage
  | [] => []
  | c :: rest => convertOne c rest ++ convert_contents_to_messages rest

/-
  `convert_config_to_openai_params` (lines 127-145).  The generationConfig
  dict is modelled as `Option GenerationConfig` with one `Option` field
  per key the function reads; `none` for the whole config models an
  absent/None config, and a config whose fields are all `none` models the
  empty dict (both are falsy in `if not config`).
-/
structure GenerationConfig where
  temperature : Option Json
  maxOutputTokens : Option Json
  topP : Option Json
  topK : Option Json
  stopSequences : Option Json

/-- The OpenAI parameter dict the function can produce; a `none` field
is an absent key. -/
structure OpenAIParams where
  temperature : Option Json
  max_tokens : Option Json
  top_p : Option Json
  stop : Option Json

def emptyParams : OpenAIParams := ⟨none, none, none, none⟩

/-- `if not config:` — the config is None or the empty dict. -/
def cfgFalsy (c : GenerationConfig) : Bool :=
  c.temperature.isNone && c.maxOutputTokens.isNone && c.topP.isNone &&
  c.topK.isNone && c.stopSequences.isNone

/-- `GeminiToOpenAIConverter.convert_config_to_openai_params`:
presence-conditional renames; topK is never read. -/
def convert_config_to_openai_params (cfg : Option GenerationConfig) : OpenAIParams :=
  match cfg with
  | none => emptyParams
  | some c =>
    if cfgFalsy c then emptyParams
    else ⟨c.temperature, c.maxOutputTokens, c.topP, c.stopSequences⟩

/-
  `OpenAIToGeminiConverter.clean_markdown_json` (lines 173-188): the
  regex  ^```json\s*\n(.*?)\n```$  with re.DOTALL, matched with re.match
  against content.strip().  Since the input is stripped it has no
  trailing newline, so the final $ can only match the end of the string;
  the (.*?)\n```$ tail therefore forces the group to be everything up to
  a final "\n```" suffix, and only the greedy \s* needs backtracking.
-/

/-- Match `(.*?)\n```$` against the whole remaining input: succeeds iff
the input ends in newline-backtick-backtick-backtick, group = the rest. -/
def fenceTail (u : List Char) : Option (List Char) :=
  if 4 ≤ u.length ∧ u.drop (u.length - 4) = [pchNewline, '`', '`', '`'] then
    some (u.take (u.length - 4))
  else none

/-- Try to match `\s*\n` consuming exactly `k` whitespace characters and
then a newline, followed by the tail pattern. -/
def fenceBody (k : Nat) (rest : List Char) : Option (List Char) :=
  if (rest.drop k).head? = some pchNewline then fenceTail (rest.drop (k + 1))
  else none

/-- Backtracking for the greedy `\s*`: try the longest whitespace run
first, then shorter ones. -/
def tryKs : Nat → List Char → Option (List Char)
  | 0, rest => fenceBody 0 rest
  | k + 1, rest =>
    match fenceBody (k + 1) rest with
    | some m => some m
    | none => tryKs k rest

/-- The full regex match on the (already stripped) text: the literal
```json, then \s*\n, then the lazy group pinned by the final \n```$.
Returns the group on success. -/
def fenceMatch (t : List Char) : Option (List Char) :=
  if t.take 7 = ['`', '`', '`', 'j', 's', 'o', 'n'] then
    let rest := t.drop 7
    tryKs (rest.takeWhile pyIsSpace).length rest
  else none

/-- `OpenAIToGeminiConverter.clean_markdown_json`: unwrap a single outer
json-labelled fence, otherwise return the content unchanged. -/
def clean_markdown_json (content : String) : String :=
  match fenceMatch (pyStrip content).data with
  | some inner => String.mk inner
  | none => content

/-
  `OpenAIToGeminiConverter.convert_response_to_gemini` (lines 190-269),
  restricted to the parts/finishReason conversion of the first choice
  (lines 226-240 only wrap the result in the fixed candidates /
  promptFeedback envelope and lines 242-267 copy usage counts through).
-/

/-- `tool_call.function` of a complete (non-streaming) response. -/
structure OFunction where
  name : String
  arguments : String

structure RToolCall where
  id : String
  function : OFunction

structure RMessage where
  content : Option String
  tool_calls : List RToolCall

structure RChoice where
  message : RMessage
  finish_reason : Option String

/-- A produced Gemini part: text or a functionCall with parsed args. -/
inductive GemPart where
  | text : String → GemPart
  | functionCall : String → Json → GemPart

/-- The content of the produced first candidate: its parts and the
mapped finishReason (a string for the non-streaming converter). -/
structure GemResult where
  parts : List GemPart
  finishReason : String

/-- Lines 217-224: the non-streaming finish-reason table with default
"STOP" (`finish_reason_mapping.get(choice.finish_reason, "STOP")`). -/
def finishMap (fr : Option String) : String :=
  match fr with
  | some s =>
    if s = "stop" then "STOP"
    else if s = "length" then "MAX_TOKENS"
    else if s = "content_filter" then "SAFETY"
    else if s = "tool_calls" then "STOP"
    else if s = "function_call" then "STOP"
    else "STOP"
  | none => "STOP"

/-- Python truthiness of an optional string (None and "" are falsy). -/
def truthyStrOpt : Option String → Bool
  | none => false
  | some s => s ≠ ""

/-- Lines 206-214: convert each tool call, parsing its argument string;
a parse failure raises (modelled by `none`). -/
def mapToolCalls : List RToolCall → Option (List GemPart)
  | [] => some []
  | tc :: rest =>
    match loads tc.function.arguments with
    | some a => (mapToolCalls rest).map (fun ps => GemPart.functionCall tc.function.name a :: ps)
    | none => none

/-- `convert_response_to_gemini` on one choice: text part (after
markdown-fence cleaning) if the content is truthy, then the converted
tool calls, with the mapped finish reason. -/
def convertChoice (c : RChoice) : Option GemResult :=
  let textParts :=
    if truthyStrOpt c.message.content then
      [GemPart.text (clean_markdown_json (c.message.content.getD ""))]
    else []
  match mapToolCalls c.message.tool_calls with
  | some callParts => some ⟨textParts ++ callParts, finishMap c.finish_reason⟩
  | none => none

/-
  `OpenAIToGeminiConverter.convert_streaming_chunk_to_gemini`
  (lines 271-356) and the accumulation state.  The fields of a delta
  tool call are plain strings because the code only tests their
  truthiness (None and "" behave identically).
-/

/-- One entry of `delta.tool_calls`. -/
structure DeltaToolCall where
  index : Option Nat
  id : String
  name : String
  args : String

/-- One accumulation record (lines 299-303). -/
structure AccEntry where
  id : String
  name : String
  arguments : String

/-- The accumulation dict, as an insertion-ordered association list with
unique keys. -/
abbrev AccMap := List (String × AccEntry)

def lookupA (st : AccMap) (k : String) : Option AccEntry :=
  match st with
  | [] => none
  | p :: rest => if p.1 = k then some p.2 else lookupA rest k

/-- Dict assignment: update in place, or append a new key at the end. -/
def setA (st : AccMap) (k : String) (e : AccEntry) : AccMap :=
  match st with
  | [] => [(k, e)]
  | p :: rest => if p.1 = k then (k, e) :: rest else p :: setA rest k e

/-- Dict deletion of a key (keys are unique). -/
def eraseA : AccMap → String → AccMap
  | [], _ => []
  | p :: rest, k => if p.1 = k then eraseA rest k else p :: eraseA rest k

/-- Line 295: `f"tool_{tool_call_index}"`. -/
def slotKey (n : Nat) : String := "tool_" ++ toString n

/-- Lines 292-336: process one delta tool call — create the entry on
first sight, set id and name on their first non-empty occurrence only,
append argument text, then try to parse the buffer; on success emit the
functionCall part and delete the entry. -/
def processToolCall (st : AccMap) (tc : DeltaToolCall) : AccMap × Option GemPart :=
  let key := slotKey (tc.index.getD 0)
  let e0 := (lookupA st key).getD ⟨"", "", ""⟩
  let id1 := if tc.id ≠ "" ∧ e0.id = "" then tc.id else e0.id
  let nm1 := if tc.name ≠ "" ∧ e0.name = "" then tc.name else e0.name
  let ar1 := e0.arguments ++ tc.args
  let e1 : AccEntry := ⟨id1, nm1, ar1⟩
  if ar1 ≠ "" ∧ nm1 ≠ "" then
    match loads ar1 with
    | some a => (eraseA (setA st key e1) key, some (GemPart.functionCall nm1 a))
    | none => (setA st key e1, none)
  else (setA st key e1, none)

/-- Fold `processToolCall` over the fragment's tool calls in order. -/
def processCalls : AccMap → List DeltaToolCall → AccMap × List GemPart
  | st, [] => (st, [])
  | st, tc :: rest =>
    let r1 := processToolCall st tc
    let r2 := processCalls r1.1 rest
    (r2.1, r1.2.toList ++ r2.2)

structure Delta where
  content : String
  toolCalls : List DeltaToolCall

structure ChunkChoice where
  delta : Option Delta
  finishReason : Option String

structure Chunk where
  choices : List ChunkChoice

/-- Lines 342-347: the streaming finish-reason table — note it has no
"function_call" entry and `dict.get` returns None on a miss. -/
def streamFinishMap (s : String) : Option String :=
  if s = "stop" then some "STOP"
  else if s = "length" then some "MAX_TOKENS"
  else if s = "content_filter" then some "SAFETY"
  else if s = "tool_calls" then some "STOP"
  else none

/-- The produced Gemini streaming fragment: parts plus an optional
finishReason (None is emitted as JSON null). -/
structure GemChunk where
  parts : List GemPart
  finishReason : Option String

/-- `convert_streaming_chunk_to_gemini`: returns the updated
accumulation state and the optional produced fragment. -/
def consumeFragment (st : AccMap) (ch : Chunk) : AccMap × Option GemChunk :=
  match ch.choices.head? with
  | none => (st, none)
  | some choice =>
    match choice.delta with
    | none => (st, none)
    | some delta =>
      let textParts := if delta.content ≠ "" then [GemPart.text delta.content] else []
      let r := processCalls st delta.toolCalls
      let parts := textParts ++ r.2
      if parts.isEmpty && !truthyStrOpt choice.finishReason then (r.1, none)
      else
        (r.1, some ⟨parts,
          if truthyStrOpt choice.finishReason then streamFinishMap (choice.finishReason.getD "")
          else none⟩)

/-- JSON rendering of a produced part (lines 288 and 325-330). -/
def partToJson : GemPart → Json
  | GemPart.text s => Json.obj (toJObj [("text", Json.str s)])
  | GemPart.functionCall n a =>
    Json.obj (toJObj [("functionCall", Json.obj (toJObj [("name", Json.str n), ("args", a)]))])

/-- The single candidate of a streaming fragment (lines 350-355; the
flush chunk of lines 591-605 has the same shape). -/
def candJson (g : GemChunk) : Json :=
  Json.obj (toJObj
    [("content", Json.obj (toJObj [("parts", Json.arr (toJArr (g.parts.map partToJson))),
                                   ("role", Json.str "model")])),
     ("finishReason", match g.finishReason with | some f => Json.str f | none => Json.null),
     ("index", Json.num "0"),
     ("safetyRatings", Json.arr JArr.nil)])

/-- The full JSON body of one streamed fragment. -/
def gemChunkToJson (g : GemChunk) : Json :=
  Json.obj (toJObj [("candidates", Json.arr (toJArr [candJson g]))])

/-
  `GeminiProxyService.stream_generate_content` (lines 478-655), reduced
  to the frame-producing control flow: each backend chunk is converted
  and, if a fragment results, emitted as an SSE frame; at stream end the
  remaining accumulation entries are flushed; an exception raised by the
  backend stream after some prefix of chunks yields one terminal error
  frame instead of any further data.
-/

/-- One SSE data frame (line 579/618: `f"data: \x7bchunk_data\x7d\n\n"`). -/
def dataFrame (g : GemChunk) : String :=
  "data: " ++ dumps (gemChunkToJson g) ++ "\n\n"

/-- Lines 648-654: the terminal error payload and frame. -/
def errObj (msg : String) : Json :=
  Json.obj (toJObj [("message", Json.str msg), ("type", Json.str "internal_error")])

def errorFrame (msg : String) : String :=
  "data: " ++ dumps (Json.obj (toJObj [("error", errObj msg)])) ++ "\n\n"

/-- Lines 582-627: flush one remaining accumulation entry at stream end:
emit a completed functionCall fragment with finishReason STOP when the
name is non-empty and the buffer parses; otherwise drop it silently. -/
def flushEntry (e : AccEntry) : Option GemChunk :=
  if e.name ≠ "" ∧ e.arguments ≠ "" then
    match loads e.arguments with
    | some a => some ⟨[GemPart.functionCall e.name a], some "STOP"⟩
    | none => none
  else none

/-- Flush every remaining entry, in insertion order. -/
def flushResidual (st : AccMap) : List GemChunk :=
  st.filterMap fun p => flushEntry p.2

/-- One iteration of the `async for` loop: convert the chunk and append
the produced frame, if any. -/
def streamStep (acc : AccMap × List String) (ch : Chunk) : AccMap × List String :=
  let r := consumeFragment acc.1 ch
  (r.1, acc.2 ++ (r.2.map dataFrame).toList)

/-- The frames produced by iterating over a chunk sequence. -/
def streamFrames (chunks : List Chunk) : List String :=
  (chunks.foldl streamStep ([], [])).2

/-- The whole streaming exchange.  `err = some (n, msg)` models an
exception with message `msg` raised by the backend stream after `n`
chunks were delivered (the except-branch then emits one error frame and
the generator ends, skipping the flush); `err = none` is the normal path
ending with the residual flush. -/
def runStream (chunks : List Chunk) (err : Option (Nat × String)) : List String :=
  match err with
  | some (n, msg) => streamFrames (chunks.take n) ++ [errorFrame msg]
  | none =>
    let r := chunks.foldl streamStep ([], [])
    r.2 ++ (flushResidual r.1).map dataFrame

/-
  Spec-side projections and concrete inputs used by the claim theorems.
-/

/-- The ToolCall a functionCall part converts to (when not pruned). -/
def partToToolCall : GPart → Option OToolCall
  | GPart.functionCall n a => some (mkToolCall n a)
  | _ => none

/-- The tool-result message a functionResponse part converts to. -/
def toolMsgOfPart : GPart → Option OMessage
  | GPart.functionResponse n r =>
    some (OMessage.tool (n.getD "unknown" ++ ":0") (dumps (r.getD (Json.obj JObj.nil))))
  | _ => none

/-- Does any part of any turn hold a functionResponse? -/
def anyFunctionResponse (contents : List GContent) : Bool :=
  contents.any fun c => c.parts.any fun p =>
    match p with
    | GPart.functionResponse _ _ => true
    | _ => false

/-- The tool calls of the last assistant message of a converted request. -/
def lastAssistantCalls (msgs : List OMessage) : List OToolCall :=
  ((msgs.filterMap fun m =>
      match m with
      | OMessage.assistant _ tcs => some tcs
      | _ => none).getLast?).getD []

/-- "Set on the first non-empty occurrence only": keep the old value
unless it is empty and the incoming one is not. -/
def firstNonEmpty (old incoming : String) : String :=
  if incoming ≠ "" ∧ old = "" then incoming else old

/-- The accumulation entry a delta tool call must leave for its slot:
id and name from their first non-empty occurrence, arguments appended. -/
def specUpdatedEntry (st : AccMap) (tc : DeltaToolCall) : AccEntry :=
  let e0 := (lookupA st (slotKey (tc.index.getD 0))).getD ⟨"", "", ""⟩
  ⟨firstNonEmpty e0.id tc.id, firstNonEmpty e0.name tc.name, e0.arguments ++ tc.args⟩

/-- C1 counterexample input: a dangling functionCall in a non-final
model turn, followed by a user text turn; no functionResponse anywhere. -/
def cexC1 : List GContent :=
  [⟨"model", [GPart.functionCall (some "f") none]⟩, ⟨"user", [GPart.text "hi"]⟩]

/-- C2 scenario, fragment 1: the tool call's function name only. -/
def chC2a : Chunk := ⟨[⟨some ⟨"", [⟨some 0, "call_1", "f", ""⟩]⟩, none⟩]⟩

/-- C2 scenario, fragment 2: the first half of the argument string. -/
def chC2b : Chunk := ⟨[⟨some ⟨"", [⟨some 0, "", "", "\x7b\"x\":"⟩]⟩, none⟩]⟩

/-- C2 scenario, fragment 3: the second half of the argument string. -/
def chC2c : Chunk := ⟨[⟨some ⟨"", [⟨some 0, "", "", "1\x7d"⟩]⟩, none⟩]⟩

/-- C5 counterexample input: a streaming fragment with text and
finish_reason "function_call". -/
def chC5 : Chunk := ⟨[⟨some ⟨"hi", []⟩, some "function_call"⟩]⟩

/-- A delta tool call used to instantiate the C4 invariants. -/
def tcC4 : DeltaToolCall := ⟨some 0, "id0", "f", ""⟩

/-- Claim C1, counterexample.  The claim says no ToolCall appears in the
converted request's final assistant turn unless a functionResponse with a
matching name exists somewhere in the request.  For the input
`[model turn with functionCall "f", user turn with text "hi"]` the model
turn is not last, so its dangling call is preserved and lands in the
(only, hence final) assistant message of the conversion, although no
functionResponse exists anywhere. -/
theorem C1_counterexample :
    lastAssistantCalls (convert_contents_to_messages cexC1) = [⟨"f:0", "f", "\x7b\x7d"⟩] ∧
    anyFunctionResponse cexC1 = false := ⟨rfl, rfl⟩

/-- Claim C1, amended: a functionCall in a non-final model turn is
always preserved (even when dangling), and a functionCall in the final
input turn is always dropped — the matching-response search only looks
at later turns, and the final turn has none.  Formally: the tool calls
produced from a model turn's parts are empty when the turn is last, and
exactly the image of its functionCall parts otherwise. -/
theorem C1_amended : ∀ (parts : List GPart) (later : List GContent),
    (convertModelParts later.isEmpty later parts).2 =
      (if later.isEmpty then [] else parts.filterMap partToToolCall) := by
  intro parts later
  cases later with
  | nil =>
    simp only [List.isEmpty_nil, if_true]
    induction parts with
    | nil => rfl
    | cons p rest ih =>
      cases p <;> simp [convertModelParts, hasMatchingResponse, ih]
  | cons c cs =>
    simp only [List.isEmpty_cons, if_false]
    induction parts with
    | nil => rfl
    | cons p rest ih =>
      cases p <;> simp [convertModelParts, partToToolCall, ih]

/-- Claim C7, counterexample.  The claim says a turn with role
"assistant" is treated the same as one with role "model"; in fact an
"assistant" turn produces no messages at all, while the same turn with
role "model" produces an assistant message with its text. -/
theorem C7_counterexample :
    convert_contents_to_messages [⟨"assistant", [GPart.text "hi"]⟩] = [] ∧
    convert_contents_to_messages [⟨"model", [GPart.text "hi"]⟩] =
      [OMessage.assistant (some "hi") []] := ⟨rfl, rfl⟩

/-- Claim C7, amended: convertTurns recognises only the roles "user"
and "model"; a turn whose role is "assistant" is skipped entirely,
contributing nothing to the conversion. -/
theorem C7_amended : ∀ (c : GContent) (rest : List GContent), c.role = "assistant" →
    convert_contents_to_messages (c :: rest) = convert_contents_to_messages rest := by
  intro c rest h
  simp [convert_contents_to_messages, convertOne, h]

/-- Claim C7, witness: the amended statement applied to a concrete
assistant-role turn. -/
theorem C7_witness :
    convert_contents_to_messages [⟨"assistant", [GPart.text "hi"]⟩] =
      convert_contents_to_messages [] :=
  C7_amended ⟨"assistant", [GPart.text "hi"]⟩ [] rfl

/-- Claim C8: convertGenerationConfig is presence-preserving — an
absent or empty generationConfig maps to the empty parameter set; each
of temperature, maxOutputTokens (renamed max_tokens), topP (renamed
top_p) and stopSequences (renamed stop) is carried over exactly when
present; topK never influences the output; and a config containing only
topP maps to a parameter set containing only top_p. -/
theorem C8_thm :
    convert_config_to_openai_params none = emptyParams ∧
    (∀ c : GenerationConfig, convert_config_to_openai_params (some c) =
        ⟨c.temperature, c.maxOutputTokens, c.topP, c.stopSequences⟩) ∧
    (∀ v, convert_config_to_openai_params (some ⟨none, none, some v, none, none⟩) =
        ⟨none, none, some v, none⟩) ∧
    (∀ (c : GenerationConfig) (k : Option Json),
      convert_config_to_openai_params
          (some (GenerationConfig.mk c.temperature c.maxOutputTokens c.topP k c.stopSequences)) =
        convert_config_to_openai_params (some c)) := by
  have key : ∀ c : GenerationConfig, convert_config_to_openai_params (some c) =
      ⟨c.temperature, c.maxOutputTokens, c.topP, c.stopSequences⟩ := by
    intro c
    by_cases h : cfgFalsy c = true
    · have h' := h
      simp only [cfgFalsy, Bool.and_eq_true, Option.isNone_iff_eq_none] at h'
      obtain ⟨⟨⟨⟨h1, h2⟩, h3⟩, _⟩, h5⟩ := h'
      simp [convert_config_to_openai_params, h, emptyParams, h1, h2, h3, h5]
    · simp [convert_config_to_openai_params, h]
  refine ⟨rfl, key, fun v => key _, fun c k => (key _).trans (key c).symm⟩

/-- Claim C10: every functionResponse part of a user turn yields a
tool message whose call identifier is the response's function name
concatenated with ":0" (defaulting to "unknown:0" when the name is
absent — the same synthesis mkToolCall uses for ToolCall identifiers)
and whose payload is the JSON serialization of the response field,
defaulting to "\x7b\x7d" when absent. -/
theorem C10_thm :
    (∀ ps : List GPart, (convertUserParts ps).2 = ps.filterMap toolMsgOfPart) ∧
    (∀ (n : Option String) (r : Option Json), toolMsgOfPart (GPart.functionResponse n r) =
        some (OMessage.tool (n.getD "unknown" ++ ":0") (dumps (r.getD (Json.obj JObj.nil))))) ∧
    toolMsgOfPart (GPart.functionResponse none none) = some (OMessage.tool "unknown:0" "\x7b\x7d") ∧
    (∀ (n : Option String) (a : Option Json), (mkToolCall n a).id = n.getD "unknown" ++ ":0") := by
  refine ⟨?_, fun n r => rfl, rfl, fun n a => rfl⟩
  intro ps
  induction ps with
  | nil => rfl
  | cons p rest ih =>
    cases p <;> simp [convertUserParts, toolMsgOfPart, ih]

/-- Claim C2: for a stream delivering the tool call's name in fragment
1 and its argument string split as `\x7b"x":` / `1\x7d` over fragments 2
and 3, the accumulator produces no output fragment for fragments 1 and 2
(they carry no text and no finish reason) and, after fragment 3, exactly
one functionCall part with args `\x7b"x":1\x7d`, the slot entry being
removed. -/
theorem C2_thm :
    (consumeFragment [] chC2a).2 = none ∧
    (consumeFragment (consumeFragment [] chC2a).1 chC2b).2 = none ∧
    consumeFragment (consumeFragment (consumeFragment [] chC2a).1 chC2b).1 chC2c =
      ([], some ⟨[GemPart.functionCall "f" (Json.obj (JObj.cons "x" (Json.num "1") JObj.nil))],
           none⟩) :=
  ⟨rfl, rfl, rfl⟩

/-- Claim C5, counterexample.  The claim says streaming fragments use
the same finish-reason table (which maps function_call, and any other
value, to STOP).  A streaming fragment with finish_reason
"function_call" instead yields an absent (null) finishReason. -/
theorem C5_counterexample :
    consumeFragment [] chC5 = ([], some ⟨[GemPart.text "hi"], none⟩) ∧
    finishMap (some "function_call") = "STOP" := ⟨rfl, rfl⟩

/-- Claim C5, amended: non-streaming responses map the finish reason
through the fixed table stop→STOP, length→MAX_TOKENS,
content_filter→SAFETY, tool_calls→STOP, function_call→STOP with any
other or missing value mapping to STOP; streaming fragments use the
table without the function_call entry and without the STOP default, so
an absent finish reason, "function_call", or any other unlisted value
yields an absent finishReason. -/
theorem C5_amended :
    (∀ (m : RMessage) (fr : Option String) (r : GemResult),
        convertChoice ⟨m, fr⟩ = some r → r.finishReason = finishMap fr) ∧
    (finishMap (some "stop") = "STOP" ∧ finishMap (some "length") = "MAX_TOKENS" ∧
      finishMap (some "content_filter") = "SAFETY" ∧ finishMap (some "tool_calls") = "STOP" ∧
      finishMap (some "function_call") = "STOP" ∧ finishMap none = "STOP") ∧
    (∀ s : String, s ≠ "stop" → s ≠ "length" → s ≠ "content_filter" → s ≠ "tool_calls" →
      s ≠ "function_call" → finishMap (some s) = "STOP") ∧
    (∀ (st : AccMap) (ch : Chunk) (stO : AccMap) (g : GemChunk),
        consumeFragment st ch = (stO, some g) →
        g.finishReason = (match ch.choices.head? with
          | some choice =>
            if truthyStrOpt choice.finishReason then streamFinishMap (choice.finishReason.getD "")
            else none
          | none => none)) ∧
    (streamFinishMap "stop" = some "STOP" ∧ streamFinishMap "length" = some "MAX_TOKENS" ∧
      streamFinishMap "content_filter" = some "SAFETY" ∧
      streamFinishMap "tool_calls" = some "STOP") ∧
    (∀ s : String, s ≠ "stop" → s ≠ "length" → s ≠ "content_filter" → s ≠ "tool_calls" →
      streamFinishMap s = none) := by
  refine ⟨?_, ⟨rfl, rfl, rfl, rfl, rfl, rfl⟩, ?_, ?_, ⟨rfl, rfl, rfl, rfl⟩, ?_⟩
  · intro m fr r h
    unfold convertChoice at h
    cases hm : mapToolCalls m.tool_calls with
    | none => rw [hm] at h; simp at h
    | some callParts =>
      rw [hm] at h
      simp only [Option.some.injEq] at h
      rw [← h]
  · intro s h1 h2 h3 h4 h5
    simp [finishMap, h1, h2, h3, h4, h5]
  · intro st ch stO g h
    cases hh : ch.choices.head? with
    | none =>
      simp only [consumeFragment, hh] at h
      simp at h
    | some choice =>
      cases hd : choice.delta with
      | none =>
        simp only [consumeFragment, hh, hd] at h
        simp at h
      | some delta =>
        simp only [consumeFragment, hh, hd] at h
        simp only [hh]
        split at h <;>
          try split at h
        all_goals
          first
          | (simp only [Prod.mk.injEq, Option.some.injEq] at h
             obtain ⟨-, h2⟩ := h
             subst h2
             rfl)
          | simp at h
  · intro s h1 h2 h3 h4
    simp [streamFinishMap, h1, h2, h3, h4]

/-- Claim C5, witness: the amended statement applied at concrete
inputs ("length" non-streaming, "weird", "function_call", and the chC5
streaming fragment). -/
theorem C5_witness :
    GemResult.finishReason ⟨[GemPart.text "hi"], "MAX_TOKENS"⟩ = finishMap (some "length") ∧
    finishMap (some "weird") = "STOP" ∧
    streamFinishMap "function_call" = none ∧
    GemChunk.finishReason ⟨[GemPart.text "hi"], none⟩ =
      (match chC5.choices.head? with
        | some choice =>
          if truthyStrOpt choice.finishReason then streamFinishMap (choice.finishReason.getD "")
          else none
        | none => none) :=
  ⟨C5_amended.1 ⟨some "hi", []⟩ (some "length") ⟨[GemPart.text "hi"], "MAX_TOKENS"⟩ rfl,
   C5_amended.2.2.1 "weird" (by decide) (by decide) (by decide) (by decide) (by decide),
   C5_amended.2.2.2.2.2 "function_call" (by decide) (by decide) (by decide) (by decide),
   C5_amended.2.2.2.1 [] chC5 [] ⟨[GemPart.text "hi"], none⟩ rfl⟩

/-- Claim C6: converting a response whose message text is exactly
```json\n\x7b"a":1\x7d\n``` yields the output text `\x7b"a":1\x7d` with no
residual fences, and any text that is not (after trimming) a single
outer json-labelled fenced block is passed through unchanged. -/
theorem C6_thm :
    convertChoice ⟨⟨some "```json\n\x7b\"a\":1\x7d\n```", []⟩, some "stop"⟩ =
      some ⟨[GemPart.text "\x7b\"a\":1\x7d"], "STOP"⟩ ∧
    (∀ s : String, s ≠ "" → fenceMatch (pyStrip s).data = none →
      convertChoice ⟨⟨some s, []⟩, some "stop"⟩ = some ⟨[GemPart.text s], "STOP"⟩) := by
  refine ⟨rfl, ?_⟩
  intro s hs hm
  simp [convertChoice, truthyStrOpt, hs, clean_markdown_json, hm, mapToolCalls, finishMap]

/-- Claim C6, witness: the pass-through clause applied to the
fence-free text "hello". -/
theorem C6_witness :
    convertChoice ⟨⟨some "hello", []⟩, some "stop"⟩ = some ⟨[GemPart.text "hello"], "STOP"⟩ :=
  C6_thm.2 "hello" (by decide) (by decide)

/-- Claim C3: at stream end, an accumulation entry with a non-empty
name and a non-empty argument buffer that parses yields exactly one
functionCall fragment with finishReason STOP; an entry with an empty
name, an empty buffer, or an unparseable buffer is discarded producing
nothing; the flush treats entries independently (homomorphic over
append) and only ever emits functionCall/STOP fragments — never an
error. -/
theorem C3_thm :
    (∀ (k : String) (e : AccEntry) (a : Json), loads e.arguments = some a → e.name ≠ "" →
        flushResidual [(k, e)] = [⟨[GemPart.functionCall e.name a], some "STOP"⟩]) ∧
    (∀ (k : String) (e : AccEntry),
        e.name = "" ∨ e.arguments = "" ∨ loads e.arguments = none →
        flushResidual [(k, e)] = []) ∧
    (∀ s t : AccMap, flushResidual (s ++ t) = flushResidual s ++ flushResidual t) ∧
    (∀ (st : AccMap) (g : GemChunk), g ∈ flushResidual st →
        ∃ (n : String) (a : Json), g = ⟨[GemPart.functionCall n a], some "STOP"⟩) := by
  refine ⟨?_, ?_, ?_, ?_⟩
  · intro k e a ha hn
    have hne : e.arguments ≠ "" := by
      intro h0
      rw [h0] at ha
      exact Option.noConfusion ha
    simp [flushResidual, flushEntry, hn, hne, ha]
  · intro k e h
    rcases h with h | h | h
    · simp [flushResidual, flushEntry, h]
    · simp [flushResidual, flushEntry, h]
    · by_cases hn : e.name = ""
      · simp [flushResidual, flushEntry, hn]
      · by_cases hne : e.arguments = ""
        · simp [flushResidual, flushEntry, hne]
        · simp [flushResidual, flushEntry, hn, hne, h]
  · intro s t
    simp [flushResidual, List.filterMap_append]
  · intro st g hg
    simp only [flushResidual, List.mem_filterMap] at hg
    obtain ⟨p, -, he⟩ := hg
    unfold flushEntry at he
    by_cases h : (p.2.name ≠ "" ∧ p.2.arguments ≠ "")
    · rw [if_pos h] at he
      cases hl : loads p.2.arguments with
      | none => rw [hl] at he; exact Option.noConfusion he
      | some a =>
        rw [hl] at he
        simp only [Option.some.injEq] at he
        exact ⟨p.2.name, a, he.symm⟩
    · rw [if_neg h] at he
      exact Option.noConfusion he

/-- Claim C3, witness: the flush applied to a parseable entry
("\x7b\x7d") and to a truncated one ("\x7b\"x\":"). -/
theorem C3_witness :
    flushResidual [("tool_0", ⟨"id1", "f", "\x7b\x7d"⟩)] =
      [⟨[GemPart.functionCall "f" (Json.obj JObj.nil)], some "STOP"⟩] ∧
    flushResidual [("tool_0", ⟨"id1", "f", "\x7b\"x\":"⟩)] = [] :=
  ⟨C3_thm.1 "tool_0" ⟨"id1", "f", "\x7b\x7d"⟩ (Json.obj JObj.nil) rfl (by decide),
   C3_thm.2.1 "tool_0" ⟨"id1", "f", "\x7b\"x\":"⟩ (Or.inr (Or.inr rfl))⟩

lemma lookupA_setA_self (st : AccMap) (k : String) (e : AccEntry) :
    lookupA (setA st k e) k = some e := by
  induction st with
  | nil => simp [setA, lookupA]
  | cons p rest ih =>
    by_cases h : p.1 = k
    · simp [setA, h, lookupA]
    · simp [setA, h, lookupA, ih]

lemma lookupA_setA_ne (st : AccMap) (k : String) (e : AccEntry) (q : String) (h : q ≠ k) :
    lookupA (setA st k e) q = lookupA st q := by
  induction st with
  | nil => simp [setA, lookupA, Ne.symm h]
  | cons p rest ih =>
    by_cases hp : p.1 = k
    · have hq : ¬ p.1 = q := by rw [hp]; exact Ne.symm h
      simp [setA, hp, lookupA, Ne.symm h, hq]
    · simp [setA, hp, lookupA, ih]

lemma lookupA_eraseA_self (st : AccMap) (k : String) :
    lookupA (eraseA st k) k = none := by
  induction st with
  | nil => rfl
  | cons p rest ih =>
    by_cases h : p.1 = k
    · simp [eraseA, h, ih]
    · simp [eraseA, h, lookupA, ih]

lemma lookupA_eraseA_ne (st : AccMap) (k : String) (q : String) (h : q ≠ k) :
    lookupA (eraseA st k) q = lookupA st q := by
  induction st with
  | nil => rfl
  | cons p rest ih =>
    by_cases hp : p.1 = k
    · have hq : ¬ p.1 = q := by rw [hp]; exact Ne.symm h
      simp [eraseA, hp, lookupA, hq, Ne.symm h, ih]
    · simp [eraseA, hp, lookupA, ih]

/-- `processToolCall` written in terms of the spec-side updated entry
(definitionally equal: the entry stored by the code is exactly the
first-non-empty/append update). -/
lemma processToolCall_def (st : AccMap) (tc : DeltaToolCall) :
    processToolCall st tc =
      (if (specUpdatedEntry st tc).arguments ≠ "" ∧ (specUpdatedEntry st tc).name ≠ "" then
        match loads (specUpdatedEntry st tc).arguments with
        | some a =>
          (eraseA (setA st (slotKey (tc.index.getD 0)) (specUpdatedEntry st tc))
              (slotKey (tc.index.getD 0)),
            some (GemPart.functionCall (specUpdatedEntry st tc).name a))
        | none => (setA st (slotKey (tc.index.getD 0)) (specUpdatedEntry st tc), none)
      else (setA st (slotKey (tc.index.getD 0)) (specUpdatedEntry st tc), none)) := rfl

/-- Case analysis of one accumulation step: the stored entry is always
the spec-side update, and the entry is removed (with a part emitted)
exactly when the updated name is non-empty and the updated buffer
parses. -/
lemma processToolCall_cases (st : AccMap) (tc : DeltaToolCall) :
    (processToolCall st tc =
        (eraseA (setA st (slotKey (tc.index.getD 0)) (specUpdatedEntry st tc))
            (slotKey (tc.index.getD 0)),
          (loads (specUpdatedEntry st tc).arguments).map
            (GemPart.functionCall (specUpdatedEntry st tc).name)) ∧
        (specUpdatedEntry st tc).name ≠ "" ∧ (loads (specUpdatedEntry st tc).arguments).isSome)
    ∨ (processToolCall st tc = (setA st (slotKey (tc.index.getD 0)) (specUpdatedEntry st tc), none) ∧
        ¬ ((specUpdatedEntry st tc).name ≠ "" ∧ (loads (specUpdatedEntry st tc).arguments).isSome)) := by
  rw [processToolCall_def]
  by_cases hc : (specUpdatedEntry st tc).arguments ≠ "" ∧ (specUpdatedEntry st tc).name ≠ ""
  · rw [if_pos hc]
    cases hl : loads (specUpdatedEntry st tc).arguments with
    | some a =>
      left
      exact ⟨rfl, hc.2, rfl⟩
    | none =>
      right
      exact ⟨rfl, by simp⟩
  · rw [if_neg hc]
    right
    refine ⟨rfl, ?_⟩
    rw [not_and_or] at hc
    rcases hc with hc | hc
    · rw [not_not] at hc
      have hn : loads (specUpdatedEntry st tc).arguments = none := by rw [hc]; rfl
      rw [hn]
      simp
    · simp [hc]

/-- Claim C4: one accumulation step stores exactly the spec-side
update (identifier and name set on their first non-empty occurrence and
never overwritten, argument text appended), leaves every other slot
untouched, and deletes the slot's entry exactly when the updated buffer
parses as JSON and a non-empty function name is known — the same
condition under which the functionCall part is emitted.
`consumeFragment` folds this step over each fragment's tool calls, so
the invariants hold across every sequence of consumeFragment calls. -/
theorem C4_thm : ∀ (st : AccMap) (tc : DeltaToolCall),
    ((processToolCall st tc).2 =
      (if (specUpdatedEntry st tc).name ≠ "" then
        (loads (specUpdatedEntry st tc).arguments).map
          (GemPart.functionCall (specUpdatedEntry st tc).name)
      else none)) ∧
    (lookupA (processToolCall st tc).1 (slotKey (tc.index.getD 0)) =
      (if (specUpdatedEntry st tc).name ≠ "" ∧ (loads (specUpdatedEntry st tc).arguments).isSome
       then none else some (specUpdatedEntry st tc))) ∧
    (∀ q : String, q ≠ slotKey (tc.index.getD 0) →
      lookupA (processToolCall st tc).1 q = lookupA st q) := by
  intro st tc
  rcases processToolCall_cases st tc with ⟨heq, hn, hs⟩ | ⟨heq, hns⟩
  · refine ⟨?_, ?_, ?_⟩
    · rw [heq]
      simp [hn]
    · rw [heq]
      rw [if_pos ⟨hn, hs⟩]
      exact lookupA_eraseA_self _ _
    · intro q hq
      rw [heq]
      exact (lookupA_eraseA_ne _ _ _ hq).trans (lookupA_setA_ne _ _ _ _ hq)
  · refine ⟨?_, ?_, ?_⟩
    · rw [heq]
      by_cases hn : (specUpdatedEntry st tc).name ≠ ""
      · have hl : loads (specUpdatedEntry st tc).arguments = none := by
          cases h : loads (specUpdatedEntry st tc).arguments with
          | none => rfl
          | some a => exact absurd ⟨hn, by rw [h]; rfl⟩ hns
        simp [hn, hl]
      · simp [hn]
    · rw [heq]
      rw [if_neg hns]
      exact lookupA_setA_self _ _ _
    · intro q hq
      rw [heq]
      exact lookupA_setA_ne _ _ _ _ hq

/-- Claim C4, witness: the invariants applied to a first fragment
carrying id and name but no argument text — the entry is created and
kept, nothing is emitted, and other slots are untouched. -/
theorem C4_witness :
    lookupA (processToolCall [] tcC4).1 (slotKey (tcC4.index.getD 0)) = some ⟨"id0", "f", ""⟩ ∧
    (processToolCall [] tcC4).2 = none ∧
    lookupA (processToolCall [] tcC4).1 "tool_9" = lookupA [] "tool_9" := by
  refine ⟨?_, ?_, (C4_thm [] tcC4).2.2 "tool_9" (by decide)⟩
  · rw [(C4_thm [] tcC4).2.1]
    rfl
  · rw [(C4_thm [] tcC4).1]
    rfl

theorem data_append : ∀ (s t : String), (s ++ t).data = s.data ++ t.data
  | ⟨_⟩, ⟨_⟩ => rfl

/-- Every frame built from a converted fragment starts with the nine
characters of `data: {"c` (the candidates key). -/
lemma dataFrame_head (g : GemChunk) : ∃ r : List Char,
    (dataFrame g).data =
      'd' :: 'a' :: 't' :: 'a' :: ':' :: ' ' :: pchLBrace :: pchQuote :: 'c' :: r := by
  refine ⟨['a', 'n', 'd', 'i', 'd', 'a', 't', 'e', 's', pchQuote, ':', ' ', '['] ++
    ((dumps (candJson g)).data ++ [']', pchRBrace, pchNewline, pchNewline]), ?_⟩
  have h1 : dataFrame g =
      "data: " ++ ("\x7b" ++ (dumpsStr "candidates" ++ ": " ++
        ("[" ++ dumps (candJson g) ++ "]")) ++ "\x7d") ++ "\n\n" := rfl
  rw [h1]
  simp only [data_append]
  rw [show (dumpsStr "candidates").data =
        [pchQuote, 'c', 'a', 'n', 'd', 'i', 'd', 'a', 't', 'e', 's', pchQuote] from rfl]
  simp only [List.append_assoc, List.cons_append, List.nil_append, List.singleton_append]
  rfl

/-- Every error frame starts with the nine characters of `data: {"e`
(the error key). -/
lemma errorFrame_head (m : String) : ∃ r : List Char,
    (errorFrame m).data =
      'd' :: 'a' :: 't' :: 'a' :: ':' :: ' ' :: pchLBrace :: pchQuote :: 'e' :: r := by
  refine ⟨['r', 'r', 'o', 'r', pchQuote, ':', ' '] ++
    ((dumps (errObj m)).data ++ [pchRBrace, pchNewline, pchNewline]), ?_⟩
  have h1 : errorFrame m =
      "data: " ++ ("\x7b" ++ (dumpsStr "error" ++ ": " ++ dumps (errObj m)) ++ "\x7d") ++
        "\n\n" := rfl
  rw [h1]
  simp only [data_append]
  rw [show (dumpsStr "error").data = [pchQuote, 'e', 'r', 'r', 'o', 'r', pchQuote] from rfl]
  simp only [List.append_assoc, List.cons_append, List.nil_append, List.singleton_append]
  rfl

/-- A converted-fragment frame is never an error frame (they differ at
the ninth character). -/
lemma dataFrame_ne_errorFrame (g : GemChunk) (m : String) : dataFrame g ≠ errorFrame m := by
  intro h
  obtain ⟨r1, h1⟩ := dataFrame_head g
  obtain ⟨r2, h2⟩ := errorFrame_head m
  have hd : (dataFrame g).data = (errorFrame m).data := congrArg String.data h
  rw [h1, h2] at hd
  simp only [List.cons.injEq] at hd
  exact absurd hd.2.2.2.2.2.2.2.2.1 (by decide)

/-- Every frame produced while iterating backend chunks is a
`dataFrame` of some converted fragment. -/
lemma foldl_frames : ∀ (cs : List Chunk) (st : AccMap) (acc : List String),
    ∃ gs : List GemChunk, (cs.foldl streamStep (st, acc)).2 = acc ++ gs.map dataFrame := by
  intro cs
  induction cs with
  | nil => intro st acc; exact ⟨[], by simp⟩
  | cons c cs ih =>
    intro st acc
    rw [List.foldl_cons]
    have hstep : streamStep (st, acc) c =
        ((consumeFragment st c).1, acc ++ ((consumeFragment st c).2.map dataFrame).toList) := rfl
    rw [hstep]
    obtain ⟨gs, hgs⟩ := ih (consumeFragment st c).1
      (acc ++ ((consumeFragment st c).2.map dataFrame).toList)
    refine ⟨(consumeFragment st c).2.toList ++ gs, ?_⟩
    rw [hgs]
    cases (consumeFragment st c).2 <;> simp

/-- Claim C9: when an exception is raised during a streaming exchange
(modelled as the backend stream failing after a prefix of chunks), the
output frame sequence is some converted data frames followed by exactly
one terminal error frame `data: \x7b"error": \x7b"message": ...,
"type": "internal_error"\x7d\x7d` carrying the original message, and no
frame follows it. -/
theorem C9_thm : ∀ (chunks : List Chunk) (n : Nat) (msg : String),
    (∃ gs : List GemChunk,
      runStream chunks (some (n, msg)) = gs.map dataFrame ++ [errorFrame msg]) ∧
    (runStream chunks (some (n, msg))).count (errorFrame msg) = 1 := by
  intro chunks n msg
  obtain ⟨gs, hgs⟩ := foldl_frames (chunks.take n) [] []
  have hrun : runStream chunks (some (n, msg)) = gs.map dataFrame ++ [errorFrame msg] := by
    simp only [runStream, streamFrames, hgs, List.nil_append]
  refine ⟨⟨gs, hrun⟩, ?_⟩
  rw [hrun, List.count_append]
  have h0 : (gs.map dataFrame).count (errorFrame msg) = 0 := by
    rw [List.count_eq_zero]
    intro hmem
    obtain ⟨g, -, hg⟩ := List.mem_map.mp hmem
    exact dataFrame_ne_errorFrame g msg hg
  rw [h0]
  simp

end Proxy
